import Mathlib

/-!
Shallow embedding of the project-file synchronization engine in
`tools/batools/project/_updater.py` (the class `ProjectUpdater` and the
helper `project_centric_path`), with proofs about its line-correction and
whole-file apply passes, its generation cache, its source scanner and its
constructor.

Modelling conventions:
* Python strings are Lean `String`s.  The Python string operations the code
  uses (`startswith`, `endswith`, slicing `s[n:]`, the `in` operator,
  `splitlines`, `"\n".join`, `replace("\r\n", "\n")`, `removesuffix`) are
  defined below over `String.data` with Python semantics.
* The filesystem is a partial map from absolute path to contents.  Opening
  a missing path for reading raises `IOError`; directories are not modelled
  (the single `os.makedirs` call has no effect on the content map).
* Raised exceptions are `Except.error` values of `Err`; `print` calls are
  collected as structured `Output` events carrying the interpolated data.
* The per-format renderers (xcode / visual-studio / cmake / makefile /
  app-module emitters) live in modules outside the embedded source; per the
  renderer contract they are pure functions from path and existing content
  to generated content, and are parameters of the model (`GenEnv`).
-/

namespace BsProj

/-- Python `s.startswith p`, as prefix test on the character data. -/
def pyStartsWith (s p : String) : Bool := p.data.isPrefixOf s.data

/-- Python `s.endswith p`, as suffix test on the character data. -/
def pyEndsWith (s p : String) : Bool := p.data.isSuffixOf s.data

/-- Python slicing `s[n:]`. -/
def pyDrop (s : String) (n : Nat) : String := ⟨s.data.drop n⟩

/-- Helper for the Python `in` operator on strings: does `pat` occur as a
contiguous substring of the second argument. -/
def pyContainsAux (pat : List Char) : List Char → Bool
  | [] => pat.isEmpty
  | c :: rest => pat.isPrefixOf (c :: rest) || pyContainsAux pat rest

/-- Python `pat in s` for strings. -/
def pyContains (s pat : String) : Bool := pyContainsAux pat.data s.data

/-- Python `s.removesuffix suf`. -/
def pyRemoveSuffix (s suf : String) : String :=
  if pyEndsWith s suf then ⟨s.data.take (s.data.length - suf.data.length)⟩ else s

/-- Helper for Python `str.splitlines`: split on `\n`, `\r\n` and `\r`
(the exotic unicode line boundaries Python also recognises do not occur in
this code base and are not modelled).  The first argument is the reversed
current line accumulator. -/
def pySplitlinesAux : List Char → List Char → List (List Char)
  | acc, [] => if acc.isEmpty then [] else [acc.reverse]
  | acc, '\n' :: rest => acc.reverse :: pySplitlinesAux [] rest
  | acc, '\r' :: '\n' :: rest => acc.reverse :: pySplitlinesAux [] rest
  | acc, '\r' :: rest => acc.reverse :: pySplitlinesAux [] rest
  | acc, c :: rest => pySplitlinesAux (c :: acc) rest

/-- Python `s.splitlines()`. -/
def splitlines (s : String) : List String :=
  (pySplitlinesAux [] s.data).map (fun cs => ⟨cs⟩)

/-- Characters of Python `"\n".join(lines)`. -/
def joinLinesData : List String → List Char
  | [] => []
  | [l] => l.data
  | l :: rest => l.data ++ '\n' :: joinLinesData rest

/-- Python `"\n".join(lines) + "\n"`, the form in which the line-correction
pass rewrites a whole file. -/
def joinNL (lines : List String) : String := ⟨joinLinesData lines ++ ['\n']⟩

/-- Helper for Python `s.replace("\r\n", "\n")`: left-to-right single pass
replacing each CRLF pair by LF. -/
def normEOLData : List Char → List Char
  | [] => []
  | '\r' :: '\n' :: rest => '\n' :: normEOLData rest
  | c :: rest => c :: normEOLData rest

/-- Python `fcode.replace("\r\n", "\n")`, the line-ending normalization used
before comparing generated content with on-disk content. -/
def normalizeEOL (s : String) : String := ⟨normEOLData s.data⟩

/-- Python `os.path.join(a, b)` for a relative second component. -/
def joinPath (a b : String) : String := a ++ "/" ++ b

/-- Lookup in an association list, modelling Python `dict` access (keys are
unique in every dict the code builds, so first match is the value). -/
def lookupVal {β : Type} : List (String × β) → String → Option β
  | [], _ => none
  | kv :: rest, p => if kv.1 = p then some kv.2 else lookupVal rest p

/-- Assignment `d[k] = v` on a Python dict rendered as an association list:
an existing key keeps its position, a new key is appended. -/
def setKV {β : Type} : List (String × β) → String → β → List (String × β)
  | [], p, v => [(p, v)]
  | kv :: rest, p, v => if kv.1 = p then (p, v) :: rest else kv :: setKV rest p v

/-- Merging a dict of produced files into the cache, in order. -/
def setKVMany {β : Type} (l : List (String × β)) (upd : List (String × β)) :
    List (String × β) :=
  upd.foldl (fun acc kv => setKV acc kv.1 kv.2) l

/-- Filesystem model: map from absolute path to file contents. -/
def FS : Type := String → Option String

/-- Writing one file. -/
def FS.write (fs : FS) (p c : String) : FS :=
  fun q => if q = p then some c else fs q

/-- Replaying a list of recorded writes in order. -/
def FS.writeAll (fs : FS) (ws : List (String × String)) : FS :=
  ws.foldl (fun a w => a.write w.1 w.2) fs

/-- Exceptions raised by the embedded code. -/
inductive Err where
  | cleanError (msg : String)
  | runtimeError (msg : String)
  | ioError (path : String)
  | indexError
  | assertionError
deriving DecidableEq

/-- Console output events, carrying the data interpolated into each print. -/
inductive Output where
  | manualHeader
  | manualCorrection (fname : String) (lineNo : Nat) (expected : String)
  | autoExpected (idx : Nat) (fname : String) (lineNo : Nat) (expected : String)
  | autoFound (line : String)
  | correcting (fname : String) (lineNo : Nat)
  | noIssues (fileCount : Nat)
  | writingProjectFile (fname : String)
  | upToDateCount (n : Nat)
deriving DecidableEq

/-- The dataclass `_LineChange`.  `line_number` is a `Nat` because
`add_line_correction` asserts `line_number >= 0` before any entry reaches
the ledger. -/
structure LineChange where
  line_number : Nat
  expected : String
  can_auto_update : Bool
deriving DecidableEq

/-- The mutable state of one `ProjectUpdater` instance (its constructor
fields plus the three accumulator dicts). -/
structure ProjectUpdater where
  projroot : String
  projname : String
  check : Bool
  fix : Bool
  public : Bool
  license_line_checks : Bool
  run_file_checks : Bool
  can_generate_files : Bool
  enqueued_updates : List (String × Option String)
  line_corrections : List (String × List LineChange)
  generated_files : List (String × String)
  source_files : List String
  header_files : List String
deriving DecidableEq

/-- The flat `(fname, entry)` list built by the double loop at the top of
`_apply_line_changes`. -/
def flattenChanges (lcs : List (String × List LineChange)) :
    List (String × LineChange) :=
  lcs.flatMap (fun fe => fe.2.map (fun e => (fe.1, e)))

/-- Partition of the ledger into `(manual_changes, auto_changes)` exactly as
`_apply_line_changes` builds them. -/
def partition_line_changes (lcs : List (String × List LineChange)) :
    List (String × LineChange) × List (String × LineChange) :=
  ((flattenChanges lcs).filter (fun fe => !fe.2.can_auto_update),
   (flattenChanges lcs).filter (fun fe => fe.2.can_auto_update))

/-- Message of the `CleanError` raised when auto-fixable corrections are
pending but the run is not in fix mode. -/
def pendingAutoMsg (n : Nat) : String :=
  "All " ++ toString n ++ " errors are auto-fixable; run tools/pcommand" ++
    " update_project --fix to apply corrections."

/-- The report loop of `_apply_line_changes` for auto entries when fix mode
is off: print index, location and expected text, then re-read the file from
disk and print the actual line. -/
def reportAutoLoop (projroot : String) (fs : FS) :
    List (String × LineChange) → Nat → List Output × Except Err Unit
  | [], _ => ([], .ok ())
  | (fname, ch) :: rest, i =>
    let hdr := Output.autoExpected i fname (ch.line_number + 1) ch.expected
    match fs (joinPath projroot fname) with
    | none => ([hdr], .error (.ioError (joinPath projroot fname)))
    | some content =>
      match (splitlines content)[ch.line_number]? with
      | none => ([hdr], .error .indexError)
      | some line =>
        let r := reportAutoLoop projroot fs rest (i + 1)
        (hdr :: Output.autoFound line :: r.1, r.2)

/-- The fix loop of `_apply_line_changes`: for each auto entry re-read the
target file, replace the designated zero-based line, and rewrite the file as
the lines joined by newlines plus a single trailing newline. -/
def fixAutoLoop (projroot : String) :
    FS → List (String × LineChange) →
      List Output × List (String × String) × Except Err FS
  | fs, [] => ([], [], .ok fs)
  | fs, (fname, ch) :: rest =>
    let p := joinPath projroot fname
    let out := Output.correcting fname (ch.line_number + 1)
    match fs p with
    | none => ([out], [], .error (.ioError p))
    | some content =>
      let lines := splitlines content
      if ch.line_number < lines.length then
        let newContent := joinNL (lines.set ch.line_number ch.expected)
        let r := fixAutoLoop projroot (fs.write p newContent) rest
        (out :: r.1, (p, newContent) :: r.2.1, r.2.2)
      else ([out], [], .error .indexError)

/-- The method `_apply_line_changes`: partition the ledger; if any manual
entry exists, list all of them and raise; else if auto entries exist either
report them and raise (fix off) or apply them (fix on); else report the
clean source-file count. -/
def ProjectUpdater.apply_line_changes (u : ProjectUpdater) (fs : FS) :
    List Output × List (String × String) × Except Err FS :=
  let parts := partition_line_changes u.line_corrections
  if parts.1 ≠ [] then
    (Output.manualHeader ::
       parts.1.map (fun mc =>
         Output.manualCorrection mc.1 (mc.2.line_number + 1) mc.2.expected),
     [], .error (.cleanError ""))
  else if parts.2 ≠ [] then
    if u.fix = false then
      let r := reportAutoLoop u.projroot fs parts.2 0
      (r.1, [],
       match r.2 with
       | .ok _ => .error (.cleanError (pendingAutoMsg parts.2.length))
       | .error e => .error e)
    else fixAutoLoop u.projroot fs parts.2
  else
    ([Output.noIssues (u.header_files.length + u.source_files.length)],
     [], .ok fs)

/-- Message of the `CleanError` raised by `_apply_file_changes` in check
mode, naming the stale file and the diagnostic dump location. -/
def checkMismatchMsg (fname path1 path2 : String) : String :=
  "Found out-of-date project file: \x27" ++ fname ++ "\x27.\n" ++
    "To see what would change, run:\n  diff \x27" ++ path1 ++ "\x27 \x27" ++
    path2 ++ "\x27\n"

/-- The fixed scratch path `build/project_check_error_file` under the
project root where a mismatched artifact is dumped in check mode. -/
def errfilePath (projroot : String) : String :=
  joinPath projroot "build/project_check_error_file"

/-- The loop of `_apply_file_changes`: for each generated artifact, compare
its CRLF-normalized content with the file on disk; equal entries are counted
as unchanged; a differing entry is either dumped to the scratch path and
raised on (check mode) or written out verbatim. -/
def applyFileLoop (projroot : String) (check : Bool) :
    FS → List (String × String) → Nat →
      List Output × List (String × String) × Except Err (FS × Nat)
  | fs, [], count =>
    (if count > 0 then [Output.upToDateCount count] else [],
     [], .ok (fs, count))
  | fs, (fname, fcode) :: rest, count =>
    let p := joinPath projroot fname
    let fin := normalizeEOL fcode
    if fs p = some fin then applyFileLoop projroot check fs rest (count + 1)
    else
      if check then
        ([], [(errfilePath projroot, fin)],
         .error (.cleanError (checkMismatchMsg fname p (errfilePath projroot))))
      else
        let r := applyFileLoop projroot check (fs.write p fcode) rest count
        (Output.writingProjectFile fname :: r.1, (p, fcode) :: r.2.1, r.2.2)

/-- The method `_apply_file_changes`. -/
def ProjectUpdater.apply_file_changes (u : ProjectUpdater) (fs : FS) :
    List Output × List (String × String) × Except Err (FS × Nat) :=
  applyFileLoop u.projroot u.check fs u.generated_files 0

/-- The apply phase at the end of `run`: `_apply_line_changes` first, then
`_apply_file_changes`; an exception from the former aborts before the
latter runs. -/
def ProjectUpdater.apply_phase (u : ProjectUpdater) (fs : FS) :
    List Output × List (String × String) × Except Err (FS × Nat) :=
  let r1 := u.apply_line_changes fs
  match r1.2.2 with
  | .error e => (r1.1, r1.2.1, .error e)
  | .ok fs1 =>
    let r2 := u.apply_file_changes fs1
    (r1.1 ++ r2.1, r1.2.1 ++ r2.2.1, r2.2.2)

/-- The renderers `generate_file` dispatches to, as pure functions per the
renderer contract (path and existing content, plus any global context they
close over, to produced content).  `renderAssets` additionally receives the
meta manifests generated for it; `renderAssets` and `renderMeta` return a
dict of produced files because those renderers emit side-effect artifacts. -/
structure GenEnv where
  renderXcode : String → String → String
  renderVSFilters : String → String → String
  renderVSProject : String → String → String
  renderCMake : String → String → String
  renderTopLevel : String → String → String
  renderAssets : String → String → List (String × String) → List (String × String)
  renderResources : String → String → String
  renderMeta : String → List (String × String)
  renderAppModule : String → String → String

/-- Store one produced file in the generated-files cache. -/
def ProjectUpdater.setGenerated (u : ProjectUpdater) (p c : String) :
    ProjectUpdater :=
  { u with generated_files := setKV u.generated_files p c }

/-- Merge a dict of produced files into the generated-files cache. -/
def ProjectUpdater.setGeneratedMany (u : ProjectUpdater)
    (out : List (String × String)) : ProjectUpdater :=
  { u with generated_files := setKVMany u.generated_files out }

/-- Resolution of the input data of `generate_file`: the enqueued override
when one was provided, else the existing file read from disk (raising when
absent). -/
def resolveExisting (fs : FS) (u : ProjectUpdater) (path : String) :
    Except Err String :=
  match lookupVal u.enqueued_updates path with
  | some (some d) => .ok d
  | _ =>
    match fs (joinPath u.projroot path) with
    | some d => .ok d
    | none => .error (.ioError (joinPath u.projroot path))

/-- Epilogue of `generate_file`: assert the dispatched-to generator stored
an entry for the requested path and return it. -/
def finishGenerate (path : String) (r : ProjectUpdater × List String) :
    Except Err (String × ProjectUpdater × List String) :=
  match lookupVal r.1.generated_files path with
  | some c => .ok (c, r.1, r.2)
  | none => .error .assertionError

/-- The method `generate_file`, with a fuel parameter bounding the depth of
nested generation calls (the source relies on the artifact dependency graph
being acyclic; exhausted fuel is reported as an error).  Returns the
content, the updated state and the trace of renderer invocations (used to
observe that a renderer ran).  The dispatch table and its order follow the
source: xcode projects, visual-studio filters, visual-studio projects,
cmake files, the top-level / assets / resources / meta makefiles, asset and
meta manifests (side effects of their makefiles), the app module, and an
error for unknown paths. -/
def generate_file (env : GenEnv) (fs : FS) :
    Nat → ProjectUpdater → String →
      Except Err (String × ProjectUpdater × List String)
  | 0, _, _ => .error (.runtimeError "generation recursion limit exceeded")
  | fuel + 1, u, path =>
    if u.can_generate_files = false then
      .error (.runtimeError "Generate cannot be called right now.")
    else
      match lookupVal u.generated_files path with
      | some c => .ok (c, u, [])
      | none =>
        match resolveExisting fs u path with
        | .error e => .error e
        | .ok existing =>
          match
            (if pyEndsWith path "/project.pbxproj" then
              .ok (u.setGenerated path (env.renderXcode path existing), ["xcode"])
            else if pyEndsWith path ".vcxproj.filters" then
              match generate_file env fs fuel u (pyRemoveSuffix path ".filters") with
              | .error e => .error e
              | .ok (proj, u1, t1) =>
                .ok (u1.setGenerated path (env.renderVSFilters path proj),
                     t1 ++ ["vs_filters"])
            else if pyEndsWith path ".vcxproj" then
              .ok (u.setGenerated path (env.renderVSProject path existing),
                   ["vs_project"])
            else if pyEndsWith path "CMakeLists.txt" then
              .ok (u.setGenerated path (env.renderCMake path existing), ["cmake"])
            else if path = "Makefile" then
              .ok (u.setGenerated path (env.renderTopLevel path existing),
                   ["top_level_makefile"])
            else if path = "src/assets/Makefile" then
              match generate_file env fs fuel u
                  "src/meta/.meta_manifest_public.json" with
              | .error e => .error e
              | .ok (mpub, u1, t1) =>
                match generate_file env fs fuel u1
                    "src/meta/.meta_manifest_private.json" with
                | .error e => .error e
                | .ok (mpriv, u2, t2) =>
                  .ok (u2.setGeneratedMany (env.renderAssets path existing
                        [("src/meta/.meta_manifest_public.json", mpub),
                         ("src/meta/.meta_manifest_private.json", mpriv)]),
                       t1 ++ t2 ++ ["assets_makefile"])
            else if pyStartsWith path "src/assets/.asset_manifest_public" then
              match generate_file env fs fuel u "src/assets/Makefile" with
              | .error e => .error e
              | .ok (_, u1, t1) => .ok (u1, t1)
            else if pyStartsWith path "src/assets/.asset_manifest_private" then
              if u.public then .ok (u.setGenerated path existing, ["passthrough"])
              else
                match generate_file env fs fuel u "src/assets/Makefile" with
                | .error e => .error e
                | .ok (_, u1, t1) => .ok (u1, t1)
            else if path = "src/resources/Makefile" then
              .ok (u.setGenerated path (env.renderResources path existing),
                   ["resources_makefile"])
            else if path = "src/meta/Makefile" then
              .ok (u.setGeneratedMany (env.renderMeta existing), ["meta_makefile"])
            else if path = "src/assets/ba_data/python/babase/_app.py" then
              .ok (u.setGenerated path (env.renderAppModule path existing),
                   ["app_module"])
            else if pyStartsWith path "src/meta/.meta_manifest_" then
              match generate_file env fs fuel u "src/meta/Makefile" with
              | .error e => .error e
              | .ok (_, u1, t1) => .ok (u1, t1)
            else
              .error (.runtimeError
                ("No known formula to create project file: \x27" ++ path ++
                  "\x27."))
             : Except Err (ProjectUpdater × List String)) with
          | .error e => .error e
          | .ok r => finishGenerate path r

/-- Generation loop of `run`: call `generate_file` for every enqueued path
in the snapshot, in order. -/
def genLoop (env : GenEnv) (fs : FS) (fuel : Nat) :
    ProjectUpdater → List String → Except Err ProjectUpdater
  | u, [] => .ok u
  | u, p :: rest =>
    match generate_file env fs fuel u p with
    | .error e => .error e
    | .ok (_, u1, _) => genLoop env fs fuel u1 rest

/-- The method `add_line_correction`: append the entry to the per-file list
(`setdefault` semantics).  The `line_number >= 0` assert holds by typing. -/
def appendCorrection :
    List (String × List LineChange) → String → LineChange →
      List (String × List LineChange)
  | [], f, e => [(f, [e])]
  | kv :: rest, f, e =>
    if kv.1 = f then (kv.1, kv.2 ++ [e]) :: rest
    else kv :: appendCorrection rest f e

/-- The method `add_line_correction` on the updater state. -/
def ProjectUpdater.add_line_correction (u : ProjectUpdater) (filename : String)
    (line_number : Nat) (expected : String) (can_auto_update : Bool) :
    ProjectUpdater :=
  let entry : LineChange :=
    { line_number := line_number, expected := expected,
      can_auto_update := can_auto_update }
  { u with line_corrections := appendCorrection u.line_corrections filename entry }

/-- Modelled from the spec: the file checks (`batools.project._checks`) are
outside the embedded source; per the check contract a check side-effects
only through `add_line_correction` or raises a fatal error directly.  One
check is rendered as the corrections it requests plus an optional fatal
failure. -/
structure CheckAction where
  corrections : List (String × Nat × String × Bool)
  failure : Option Err

/-- Running one spec-modelled check against the updater state. -/
def runCheck (u : ProjectUpdater) (c : CheckAction) : Except Err ProjectUpdater :=
  match c.failure with
  | some e => .error e
  | none =>
    .ok (c.corrections.foldl
      (fun a cor => a.add_line_correction cor.1 cor.2.1 cor.2.2.1 cor.2.2.2) u)

/-- Running the check suite in order, stopping at the first failure. -/
def runChecks : ProjectUpdater → List CheckAction → Except Err ProjectUpdater
  | u, [] => .ok u
  | u, c :: rest =>
    match runCheck u c with
    | .error e => .error e
    | .ok u1 => runChecks u1 rest

/-- The method `run` after `prepare_to_generate` (root validation and the
source scan are modelled separately; here `source_files`/`header_files` are
already set and `can_generate_files` is true): snapshot the enqueued
updates, generate every enqueued path, run the checks when enabled, freeze
generation, assert the snapshot unchanged, then run both apply passes. -/
def ProjectUpdater.run (env : GenEnv) (checks : List CheckAction) (fuel : Nat)
    (u : ProjectUpdater) (fs : FS) :
    List Output × List (String × String) × Except Err (FS × Nat) :=
  let start := u.enqueued_updates
  match genLoop env fs fuel u (u.enqueued_updates.map Prod.fst) with
  | .error e => ([], [], .error e)
  | .ok u1 =>
    match (if u1.run_file_checks then runChecks u1 checks else .ok u1) with
    | .error e => ([], [], .error e)
    | .ok u2 =>
      let u3 := { u2 with can_generate_files := false }
      if start = u3.enqueued_updates then u3.apply_phase fs
      else ([], [], .error .assertionError)

/-- One file yielded by `os.walk(scan_dir)`: the directory suffix of the
containing dir relative to the scan dir (empty for the scan dir itself,
otherwise beginning with the separator) and the file name. -/
structure WalkEntry where
  subroot : String
  fname : String
deriving DecidableEq

/-- Path stored by the scan for a walk entry:
`os.path.join(root, fname)[len(scan_dir):]` where `root` is the scan dir
followed by the entry's directory suffix. -/
def walkRelPath (scanDir : String) (e : WalkEntry) : String :=
  pyDrop (joinPath (scanDir ++ e.subroot) e.fname) scanDir.length

/-- The extension table of `_find_sources_and_headers`. -/
def sourceExts : List String := [".c", ".cc", ".cpp", ".cxx", ".m", ".mm", ".swift"]

/-- The header extension table of `_find_sources_and_headers`. -/
def headerExts : List String := [".h"]

/-- Lexicographic order on strings by character data, the order Python
`sorted` uses on strings (code-point comparison). -/
def strLe (a b : String) : Prop := a.data ≤ b.data

instance : DecidableRel strLe :=
  fun a b => decidable_of_iff (a.data ≤ b.data) Iff.rfl

instance : IsTotal String strLe := ⟨fun a b => le_total a.data b.data⟩

instance : IsTrans String strLe := ⟨fun _ _ _ hab hbc => le_trans hab hbc⟩

instance : IsAntisymm String strLe :=
  ⟨fun a b hab hba => by
    cases a; cases b; exact congrArg String.mk (le_antisymm hab hba)⟩

/-- Python `sorted` on strings. -/
def pySorted (l : List String) : List String := l.insertionSort strLe

/-- The method `_find_sources_and_headers`: classify every walked file by
the fixed extension tables into the source and header sets, storing paths
relative to the scan dir; then drop every path containing the
machine-generated marker segment and sort. -/
def find_sources_and_headers (scanDir : String) (walk : List WalkEntry) :
    List String × List String :=
  let src_files := ((walk.filter (fun e =>
    sourceExts.any (fun ext => pyEndsWith e.fname ext))).map
      (walkRelPath scanDir)).dedup
  let header_files := ((walk.filter (fun e =>
    headerExts.any (fun ext => pyEndsWith e.fname ext))).map
      (walkRelPath scanDir)).dedup
  (pySorted (src_files.filter (fun s => !pyContains s "/mgen/")),
   pySorted (header_files.filter (fun s => !pyContains s "/mgen/")))

/-- The function `project_centric_path`.  `abspath` stands for
`os.path.abspath(path)`, which is resolved outside the model. -/
def project_centric_path (projroot abspath : String) : Except Err String :=
  if abspath = projroot then .ok "."
  else if pyStartsWith abspath (projroot ++ "/") = true then
    .ok (pyDrop abspath (projroot ++ "/").length)
  else
    .error (.runtimeError ("Path \"" ++ abspath ++
      "\" is not under project root \"" ++ projroot ++ "/\""))

/-- Observable I/O performed by the constructor. -/
inductive InitEvent where
  | readProjectConfig
  | readLocalConfig
  | existsCheck (path : String)
deriving DecidableEq

/-- The method `enqueue_update`. -/
def ProjectUpdater.enqueue_update (u : ProjectUpdater) (path : String)
    (data : Option String) : ProjectUpdater :=
  { u with enqueued_updates := setKV u.enqueued_updates path data }

/-- The method `_update_visual_studio_project`: enqueue the filters file and
then the project file for one configuration. -/
def ProjectUpdater.update_visual_studio_project (u : ProjectUpdater)
    (basename : String) : ProjectUpdater :=
  let fname := "ballisticakit-windows/" ++ basename ++ "/BallisticaKit" ++
    basename ++ ".vcxproj"
  (u.enqueue_update (fname ++ ".filters") none).enqueue_update fname none

/-- The cmake scheduling step of the constructor (`_update_cmake_files`):
always enqueue the main cmake list; enqueue the Android one when not
public, otherwise assert it is absent on disk. -/
def initCMakeStep (public onDisk : Bool) (u : ProjectUpdater) :
    List InitEvent × Except Err ProjectUpdater :=
  let fname := "ballisticakit-android/BallisticaKit/src/main/cpp/CMakeLists.txt"
  let u1 := u.enqueue_update "ballisticakit-cmake/CMakeLists.txt" none
  if public = false then ([], .ok (u1.enqueue_update fname none))
  else ([InitEvent.existsCheck fname],
    if onDisk then .error .assertionError else .ok u1)

/-- The xcode scheduling step of the constructor
(`_update_xcode_projects`): in public repos assert the project is absent and
skip it, otherwise enqueue it. -/
def initXcodeStep (public onDisk : Bool) (u : ProjectUpdater) :
    List InitEvent × Except Err ProjectUpdater :=
  let projpath := "ballisticakit-xcode/BallisticaKit.xcodeproj/project.pbxproj"
  if public then ([InitEvent.existsCheck projpath],
    if onDisk then .error .assertionError else .ok u)
  else ([], .ok (u.enqueue_update projpath none))

/-- The visual-studio scheduling step of the constructor. -/
def initVSStep (public : Bool) (u : ProjectUpdater) : ProjectUpdater :=
  let v := (u.update_visual_studio_project "Generic").update_visual_studio_project
    "Headless"
  if public then v
  else ((((v.update_visual_studio_project "GenericPlus").update_visual_studio_project
    "HeadlessPlus").update_visual_studio_project
      "Oculus").update_visual_studio_project "OculusPlus")

/-- The constructor `ProjectUpdater.__init__`.  `cfgPublic` and
`licenseLineChecks` are the values the two config reads would return;
`xcodeProjOnDisk` / `cmakeAndroidOnDisk` are what `os.path.exists` would
report for the corresponding assert-guarded paths.  Returns the observable
I/O events in order together with the constructed state or the raised
error.  The mode-exclusivity check runs before any of the I/O. -/
def initUpdater (projroot projname : String) (check fix empty : Bool)
    (cfgPublic licenseLineChecks : Bool)
    (xcodeProjOnDisk cmakeAndroidOnDisk : Bool) :
    List InitEvent × Except Err ProjectUpdater :=
  if fix && check then
    ([], .error (.runtimeError "fix and check cannot both be enabled"))
  else
    let events0 := [InitEvent.readProjectConfig, InitEvent.readLocalConfig]
    let base : ProjectUpdater :=
      { projroot := projroot, projname := projname, check := check, fix := fix,
        public := cfgPublic, license_line_checks := licenseLineChecks,
        run_file_checks := true, can_generate_files := false,
        enqueued_updates := [], line_corrections := [], generated_files := [],
        source_files := [], header_files := [] }
    if empty then
      (events0, .ok { base with run_file_checks := false })
    else
      let u1 := ((base.enqueue_update "src/meta/Makefile" none).enqueue_update
        "src/resources/Makefile" none).enqueue_update "src/assets/Makefile" none
      let u2 := u1.enqueue_update "Makefile" none
      let cm := initCMakeStep cfgPublic cmakeAndroidOnDisk u2
      match cm.2 with
      | .error e => (events0 ++ cm.1, .error e)
      | .ok u3 =>
        let u4 := initVSStep cfgPublic u3
        let xc := initXcodeStep cfgPublic xcodeProjOnDisk u4
        match xc.2 with
        | .error e => (events0 ++ cm.1 ++ xc.1, .error e)
        | .ok u5 =>
          (events0 ++ cm.1 ++ xc.1,
           .ok (u5.enqueue_update "src/assets/ba_data/python/babase/_app.py" none))

/-- Replaying writes leaves untouched every path that no write names. -/
theorem FS.writeAll_of_not_mem (fs : FS) (ws : List (String × String))
    (q : String) (h : ∀ w ∈ ws, w.1 ≠ q) : fs.writeAll ws q = fs q := by
  induction ws generalizing fs with
  | nil => rfl
  | cons w rest ih =>
    have hq : w.1 ≠ q := h w (List.mem_cons_self w rest)
    have h1 : (fs.write w.1 w.2) q = fs q := by
      have hq2 : ¬ q = w.1 := fun hh => hq hh.symm
      simp [FS.write, hq2]
    calc FS.writeAll fs (w :: rest) q
        = FS.writeAll (fs.write w.1 w.2) rest q := rfl
      _ = (fs.write w.1 w.2) q := ih _ (fun x hx => h x (List.mem_cons_of_mem _ hx))
      _ = fs q := h1

/-- Two relative paths joined below the same root coincide only if they are
equal. -/
theorem joinPath_inj (root a b : String) (h : joinPath root a = joinPath root b) :
    a = b := by
  have hd : (root ++ "/").data ++ a.data = (root ++ "/").data ++ b.data :=
    congrArg String.data h
  have h2 := List.append_cancel_left hd
  cases a; cases b
  exact congrArg String.mk h2

/-- In check mode, the only path the whole-file loop ever writes is the
scratch diagnostic path. -/
theorem applyFileLoop_check_writes (root : String) :
    ∀ (lst : List (String × String)) (fs : FS) (count : Nat),
      ∀ w ∈ (applyFileLoop root true fs lst count).2.1,
        w.1 = errfilePath root := by
  intro lst
  induction lst with
  | nil => intro fs count w hw; simp [applyFileLoop] at hw
  | cons head rest ih =>
    intro fs count w hw
    obtain ⟨fname, fcode⟩ := head
    by_cases heq : fs (joinPath root fname) = some (normalizeEOL fcode)
    · rw [applyFileLoop, if_pos heq] at hw
      exact ih fs (count + 1) w hw
    · rw [applyFileLoop, if_neg heq, if_pos rfl] at hw
      simp at hw
      rw [hw]

/-- In check mode, if some generated entry disagrees with the disk, the
whole-file loop dumps the normalized content of the first such entry to the
scratch path and raises the error naming that entry and both paths. -/
theorem applyFileLoop_check_first_mismatch (root : String) :
    ∀ (lst : List (String × String)) (fs : FS) (count : Nat),
      (∃ fc ∈ lst, fs (joinPath root fc.1) ≠ some (normalizeEOL fc.2)) →
      ∃ f c, (f, c) ∈ lst ∧
        fs (joinPath root f) ≠ some (normalizeEOL c) ∧
        (applyFileLoop root true fs lst count).2.2 =
          .error (.cleanError
            (checkMismatchMsg f (joinPath root f) (errfilePath root))) ∧
        (errfilePath root, normalizeEOL c) ∈
          (applyFileLoop root true fs lst count).2.1 := by
  intro lst
  induction lst with
  | nil => intro fs count h; simp at h
  | cons head rest ih =>
    intro fs count h
    obtain ⟨fname, fcode⟩ := head
    by_cases heq : fs (joinPath root fname) = some (normalizeEOL fcode)
    · have hrest : ∃ fc ∈ rest, fs (joinPath root fc.1) ≠ some (normalizeEOL fc.2) := by
        obtain ⟨fc, hfc, hne⟩ := h
        rcases List.mem_cons.mp hfc with hfc | hfc
        · exact absurd heq (by rw [hfc] at hne; exact hne)
        · exact ⟨fc, hfc, hne⟩
      obtain ⟨f, c, hmem, hne, hres, hwr⟩ := ih fs (count + 1) hrest
      refine ⟨f, c, List.mem_cons_of_mem _ hmem, hne, ?_, ?_⟩
      · rw [applyFileLoop, if_pos heq]; exact hres
      · rw [applyFileLoop, if_pos heq]; exact hwr
    · refine ⟨fname, fcode, List.mem_cons_self _ _, heq, ?_, ?_⟩
      · rw [applyFileLoop, if_neg heq, if_pos rfl]
      · rw [applyFileLoop, if_neg heq, if_pos rfl]
        exact List.mem_singleton_self _

/-- On a successful run of the whole-file loop, the returned filesystem is
the initial one with the recorded writes replayed. -/
theorem applyFileLoop_final_fs (root : String) (check : Bool) :
    ∀ (lst : List (String × String)) (fs : FS) (count : Nat)
      (o : List Output) (w : List (String × String)) (fs2 : FS) (n : Nat),
      applyFileLoop root check fs lst count = (o, w, .ok (fs2, n)) →
      fs2 = FS.writeAll fs w := by
  intro lst
  induction lst with
  | nil =>
    intro fs count o w fs2 n h
    simp [applyFileLoop] at h
    obtain ⟨-, hw, hfs, -⟩ := h
    rw [hw, ← hfs]
    rfl
  | cons head rest ih =>
    intro fs count o w fs2 n h
    obtain ⟨fname, fcode⟩ := head
    by_cases heq : fs (joinPath root fname) = some (normalizeEOL fcode)
    · rw [applyFileLoop, if_pos heq] at h
      exact ih fs (count + 1) o w fs2 n h
    · rw [applyFileLoop, if_neg heq] at h
      cases check with
      | true => simp at h
      | false =>
        simp only [if_neg Bool.false_ne_true] at h
        rcases hr : applyFileLoop root false (fs.write (joinPath root fname) fcode)
            rest count with ⟨ro, rw_, rres⟩
        rw [hr] at h
        simp only [Prod.mk.injEq] at h
        obtain ⟨-, hw, hres⟩ := h
        cases rres with
        | error e => simp at hres
        | ok p =>
          obtain ⟨rfs, rn⟩ := p
          simp only [Except.ok.injEq, Prod.mk.injEq] at hres
          obtain ⟨hfs, -⟩ := hres
          have := ih _ count ro rw_ rfs rn (by rw [hr])
          rw [← hw, ← hfs, this]
          rfl

/-- Every write the whole-file loop records targets the scratch path or the
project-rooted path of one of the entries it was given. -/
theorem applyFileLoop_writes_shape (root : String) (check : Bool) :
    ∀ (lst : List (String × String)) (fs : FS) (count : Nat),
      ∀ w ∈ (applyFileLoop root check fs lst count).2.1,
        w.1 = errfilePath root ∨ ∃ fc ∈ lst, w.1 = joinPath root fc.1 := by
  intro lst
  induction lst with
  | nil => intro fs count w hw; simp [applyFileLoop] at hw
  | cons head rest ih =>
    intro fs count w hw
    obtain ⟨fname, fcode⟩ := head
    by_cases heq : fs (joinPath root fname) = some (normalizeEOL fcode)
    · rw [applyFileLoop, if_pos heq] at hw
      rcases ih fs (count + 1) w hw with h | ⟨fc, hfc, hfc2⟩
      · exact Or.inl h
      · exact Or.inr ⟨fc, List.mem_cons_of_mem _ hfc, hfc2⟩
    · rw [applyFileLoop, if_neg heq] at hw
      cases check with
      | true =>
        simp only [if_pos rfl] at hw
        simp at hw
        exact Or.inl (by rw [hw])
      | false =>
        simp only [if_neg Bool.false_ne_true] at hw
        simp only [List.mem_cons] at hw
        rcases hw with hw | hw
        · exact Or.inr ⟨(fname, fcode), List.mem_cons_self _ _, by rw [hw]⟩
        · rcases ih _ count w hw with h | ⟨fc, hfc, hfc2⟩
          · exact Or.inl h
          · exact Or.inr ⟨fc, List.mem_cons_of_mem _ hfc, hfc2⟩

/-- On a successful run, the unchanged count returned by the whole-file loop
is its starting count plus the number of given entries whose normalized
content already matches the disk. -/
theorem applyFileLoop_count (root : String) (check : Bool) :
    ∀ (lst : List (String × String)) (fs : FS) (count : Nat),
      (lst.map Prod.fst).Nodup →
      ∀ o w fs2 n, applyFileLoop root check fs lst count = (o, w, .ok (fs2, n)) →
      n = count + lst.countP
        (fun fc => decide (fs (joinPath root fc.1) = some (normalizeEOL fc.2))) := by
  intro lst
  induction lst with
  | nil =>
    intro fs count hnd o w fs2 n h
    simp only [applyFileLoop, Prod.mk.injEq] at h
    obtain ⟨-, -, hres⟩ := h
    simp only [Except.ok.injEq, Prod.mk.injEq] at hres
    rw [List.countP_nil]
    omega
  | cons head rest ih =>
    intro fs count hnd o w fs2 n h
    obtain ⟨g, gc⟩ := head
    simp only [List.map_cons, List.nodup_cons] at hnd
    obtain ⟨hg, hndr⟩ := hnd
    by_cases heq : fs (joinPath root g) = some (normalizeEOL gc)
    · rw [applyFileLoop, if_pos heq] at h
      have := ih fs (count + 1) hndr o w fs2 n h
      rw [List.countP_cons]
      have hp : decide (fs (joinPath root g) = some (normalizeEOL gc)) = true :=
        decide_eq_true heq
      simp [hp]
      omega
    · rw [applyFileLoop, if_neg heq] at h
      cases check with
      | true => simp at h
      | false =>
        simp only [if_neg Bool.false_ne_true] at h
        rcases hr : applyFileLoop root false (fs.write (joinPath root g) gc)
            rest count with ⟨ro, rw_, rres⟩
        rw [hr] at h
        simp only [Prod.mk.injEq] at h
        obtain ⟨-, -, hres⟩ := h
        cases rres with
        | error e => simp at hres
        | ok p =>
          obtain ⟨rfs, rn⟩ := p
          simp only [Except.ok.injEq, Prod.mk.injEq] at hres
          obtain ⟨-, hn⟩ := hres
          have hrec := ih (fs.write (joinPath root g) gc) count hndr ro rw_ rfs rn hr
          have hsame : rest.countP (fun fc =>
              decide ((fs.write (joinPath root g) gc) (joinPath root fc.1) =
                some (normalizeEOL fc.2))) =
              rest.countP (fun fc =>
                decide (fs (joinPath root fc.1) = some (normalizeEOL fc.2))) := by
            apply List.countP_congr
            intro fc hfc
            have hne : joinPath root fc.1 ≠ joinPath root g := by
              intro hcon
              have hfst : fc.1 = g := joinPath_inj root fc.1 g hcon
              exact hg (hfst ▸ List.mem_map_of_mem Prod.fst hfc)
            simp [FS.write, hne]
          rw [List.countP_cons]
          have hp : decide (fs (joinPath root g) = some (normalizeEOL gc)) = false :=
            decide_eq_false heq
          simp only [hp, Bool.false_eq_true, if_false]
          rw [← hn, hrec, hsame]
          omega

/-- An entry whose normalized content already matches the disk is never
written by the whole-file loop (in any mode). -/
theorem applyFileLoop_no_write_matching (root : String) (check : Bool)
    (fname fcode : String) (hne : fname ≠ "build/project_check_error_file") :
    ∀ (lst : List (String × String)) (fs : FS) (count : Nat),
      (lst.map Prod.fst).Nodup →
      (fname, fcode) ∈ lst →
      fs (joinPath root fname) = some (normalizeEOL fcode) →
      ∀ c, (joinPath root fname, c) ∉ (applyFileLoop root check fs lst count).2.1 := by
  have herr : joinPath root fname ≠ errfilePath root := by
    intro hcon
    exact hne (joinPath_inj root fname "build/project_check_error_file" hcon)
  intro lst
  induction lst with
  | nil => intro fs count _ hmem; simp at hmem
  | cons head rest ih =>
    intro fs count hnd hmem hmatch c hc
    obtain ⟨g, gc⟩ := head
    simp only [List.map_cons, List.nodup_cons] at hnd
    obtain ⟨hg, hndr⟩ := hnd
    rcases List.mem_cons.mp hmem with hours | hmemr
    · -- our entry is the head: it matches, the loop skips it, and no later
      -- write can target its path
      obtain ⟨hg1, hg2⟩ := Prod.mk.injEq .. ▸ hours
      subst hg1; subst hg2
      rw [applyFileLoop, if_pos hmatch] at hc
      rcases applyFileLoop_writes_shape root check rest fs (count + 1) _ hc
        with hsh | ⟨fc, hfc, hsh⟩
      · exact herr hsh
      · have : fname = fc.1 := joinPath_inj root fname fc.1 hsh
        exact hg (this ▸ List.mem_map_of_mem Prod.fst hfc)
    · have hgne : g ≠ fname := by
        intro hcon
        exact hg (hcon ▸ List.mem_map_of_mem Prod.fst hmemr)
      by_cases heq : fs (joinPath root g) = some (normalizeEOL gc)
      · rw [applyFileLoop, if_pos heq] at hc
        exact ih fs (count + 1) hndr hmemr hmatch c hc
      · rw [applyFileLoop, if_neg heq] at hc
        cases check with
        | true =>
          simp only [if_pos rfl] at hc
          simp at hc
          exact herr hc.1
        | false =>
          simp only [if_neg Bool.false_ne_true, List.mem_cons] at hc
          rcases hc with hc | hc
          · have : joinPath root fname = joinPath root g :=
              congrArg Prod.fst hc
            exact hgne (joinPath_inj root g fname this.symm)
          · have hmatch2 : (fs.write (joinPath root g) gc) (joinPath root fname) =
                some (normalizeEOL fcode) := by
              have : joinPath root fname ≠ joinPath root g := fun hcon =>
                hgne (joinPath_inj root g fname hcon.symm)
              simp only [FS.write, if_neg this]
              exact hmatch
            exact ih (fs.write (joinPath root g) gc) count hndr hmemr hmatch2 c hc

/-- C1: whenever the ledger holds at least one manual (non-auto-fixable)
correction, the line-correction apply pass prints every manual entry with
its file, 1-based line number and expected text, raises `CleanError`, and
performs no write, in every mode (`check`, `fix` or plain) and regardless of
how many auto-fixable entries the ledger also contains. -/
theorem apply_line_changes_manual_blocks (u : ProjectUpdater) (fs : FS)
    (hman : (partition_line_changes u.line_corrections).1 ≠ []) :
    (u.apply_line_changes fs).2.1 = [] ∧
    (u.apply_line_changes fs).2.2 = .error (.cleanError "") ∧
    ∀ fc ∈ (partition_line_changes u.line_corrections).1,
      Output.manualCorrection fc.1 (fc.2.line_number + 1) fc.2.expected
        ∈ (u.apply_line_changes fs).1 := by
  have h : u.apply_line_changes fs =
      (Output.manualHeader ::
        (partition_line_changes u.line_corrections).1.map (fun mc =>
          Output.manualCorrection mc.1 (mc.2.line_number + 1) mc.2.expected),
       [], .error (.cleanError "")) := by
    unfold ProjectUpdater.apply_line_changes
    simp [hman]
  refine ⟨by rw [h], by rw [h], ?_⟩
  intro fc hfc
  rw [h]
  exact List.mem_cons_of_mem _ (List.mem_map_of_mem _ hfc)

/-- Concrete instantiation of `apply_line_changes_manual_blocks`: a ledger
with one manual and one auto entry blocks everything. -/
theorem apply_line_changes_manual_blocks_witness :
    ((partition_line_changes
        [("a.cc", [⟨0, "x", false⟩, ⟨1, "y", true⟩])]).1 ≠ []) ∧
    (({ projroot := "/r", projname := "BallisticaKit", check := false,
        fix := true, public := false, license_line_checks := true,
        run_file_checks := true, can_generate_files := false,
        enqueued_updates := [], line_corrections :=
          [("a.cc", [⟨0, "x", false⟩, ⟨1, "y", true⟩])],
        generated_files := [], source_files := [], header_files := [] } :
        ProjectUpdater).apply_line_changes (fun _ => none)).2.1 = [] := by
  refine ⟨by decide, ?_⟩
  exact (apply_line_changes_manual_blocks _ (fun _ => none) (by decide)).1

/-- C5: in check mode, whenever some generated artifact's normalized content
differs from the disk (or the file is absent), the whole-file apply pass
writes only to the fixed scratch path under the build directory, raises a
`CleanError` naming both the real path and the scratch path, and leaves
every other path (in particular the real target) byte-identical. -/
theorem apply_file_changes_check_scratch_only (u : ProjectUpdater) (fs : FS)
    (hcheck : u.check = true) :
    (∀ w ∈ (u.apply_file_changes fs).2.1, w.1 = errfilePath u.projroot) ∧
    (∀ q, q ≠ errfilePath u.projroot →
       FS.writeAll fs (u.apply_file_changes fs).2.1 q = fs q) ∧
    ((∃ fc ∈ u.generated_files,
        fs (joinPath u.projroot fc.1) ≠ some (normalizeEOL fc.2)) →
      ∃ f c, (f, c) ∈ u.generated_files ∧
        fs (joinPath u.projroot f) ≠ some (normalizeEOL c) ∧
        (u.apply_file_changes fs).2.2 =
          .error (.cleanError (checkMismatchMsg f (joinPath u.projroot f)
            (errfilePath u.projroot))) ∧
        (errfilePath u.projroot, normalizeEOL c) ∈ (u.apply_file_changes fs).2.1) := by
  have hw : ∀ w ∈ (u.apply_file_changes fs).2.1, w.1 = errfilePath u.projroot := by
    rw [ProjectUpdater.apply_file_changes, hcheck]
    exact applyFileLoop_check_writes u.projroot u.generated_files fs 0
  refine ⟨hw, ?_, ?_⟩
  · intro q hq
    exact FS.writeAll_of_not_mem fs _ q
      (fun w hm hcq => hq (hcq.symm.trans (hw w hm)))
  · intro hex
    simp only [ProjectUpdater.apply_file_changes, hcheck]
    exact applyFileLoop_check_first_mismatch u.projroot u.generated_files fs 0 hex

/-- Concrete instantiation of `apply_file_changes_check_scratch_only`: a
check-mode run over one stale artifact leaves the real target untouched. -/
theorem apply_file_changes_check_scratch_only_witness :
    FS.writeAll (fun q => if q = "/r/g" then some "stale" else none)
      (({ projroot := "/r", projname := "BallisticaKit", check := true,
          fix := false, public := false, license_line_checks := true,
          run_file_checks := true, can_generate_files := false,
          enqueued_updates := [], line_corrections := [],
          generated_files := [("g", "new\n")], source_files := [],
          header_files := [] } :
          ProjectUpdater).apply_file_changes
          (fun q => if q = "/r/g" then some "stale" else none)).2.1 "/r/g" =
      some "stale" := by
  have h := (apply_file_changes_check_scratch_only
    { projroot := "/r", projname := "BallisticaKit", check := true,
      fix := false, public := false, license_line_checks := true,
      run_file_checks := true, can_generate_files := false,
      enqueued_updates := [], line_corrections := [],
      generated_files := [("g", "new\n")], source_files := [],
      header_files := [] }
    (fun q => if q = "/r/g" then some "stale" else none) rfl).2.1 "/r/g" (by decide)
  rw [h]
  decide

/-- C4: a generated artifact whose CRLF-normalized content equals the
on-disk content of its target path is never written by the whole-file apply
pass (in any mode), keeps its on-disk content in the final filesystem, and
is counted among the unchanged files when the pass completes. -/
theorem apply_file_changes_unchanged_no_write (u : ProjectUpdater) (fs : FS)
    (hnd : (u.generated_files.map Prod.fst).Nodup)
    (fname fcode : String)
    (hmem : (fname, fcode) ∈ u.generated_files)
    (hmatch : fs (joinPath u.projroot fname) = some (normalizeEOL fcode))
    (hne : fname ≠ "build/project_check_error_file") :
    (∀ c, (joinPath u.projroot fname, c) ∉ (u.apply_file_changes fs).2.1) ∧
    ∀ o w fs2 n, u.apply_file_changes fs = (o, w, .ok (fs2, n)) →
      fs2 (joinPath u.projroot fname) = fs (joinPath u.projroot fname) ∧
      n = u.generated_files.countP
        (fun fc => decide (fs (joinPath u.projroot fc.1) = some (normalizeEOL fc.2))) ∧
      0 < n := by
  have hnw : ∀ c, (joinPath u.projroot fname, c) ∉ (u.apply_file_changes fs).2.1 := by
    rw [ProjectUpdater.apply_file_changes]
    exact applyFileLoop_no_write_matching u.projroot u.check fname fcode hne
      u.generated_files fs 0 hnd hmem hmatch
  refine ⟨hnw, ?_⟩
  intro o w fs2 n h
  have hw21 : (u.apply_file_changes fs).2.1 = w := by rw [h]
  rw [ProjectUpdater.apply_file_changes] at h
  have hfs2 : fs2 = FS.writeAll fs w :=
    applyFileLoop_final_fs u.projroot u.check u.generated_files fs 0 o w fs2 n h
  have hcount := applyFileLoop_count u.projroot u.check u.generated_files fs 0
    hnd o w fs2 n h
  refine ⟨?_, by simpa using hcount, ?_⟩
  · rw [hfs2]
    apply FS.writeAll_of_not_mem
    intro wr hwr hcq
    refine hnw wr.2 ?_
    rw [hw21]
    have hwr2 : wr = (joinPath u.projroot fname, wr.2) := by
      rw [← hcq]
    rw [← hwr2]
    exact hwr
  · have hpos : 0 < u.generated_files.countP
        (fun fc => decide (fs (joinPath u.projroot fc.1) = some (normalizeEOL fc.2))) :=
      List.countP_pos_iff.mpr ⟨(fname, fcode), hmem, decide_eq_true hmatch⟩
    omega

/-- Concrete instantiation of `apply_file_changes_unchanged_no_write`: an
up-to-date artifact is not written. -/
theorem apply_file_changes_unchanged_no_write_witness :
    (joinPath "/r" "a", "zzz") ∉
      (({ projroot := "/r", projname := "BallisticaKit", check := false,
          fix := false, public := false, license_line_checks := true,
          run_file_checks := true, can_generate_files := false,
          enqueued_updates := [], line_corrections := [],
          generated_files := [("a", "hi\n")], source_files := [],
          header_files := [] } :
          ProjectUpdater).apply_file_changes
          (fun q => if q = "/r/a" then some "hi\n" else none)).2.1 := by
  exact (apply_file_changes_unchanged_no_write _ _ (by decide) "a" "hi\n"
    (by decide) (by decide) (by decide)).1 "zzz"

/-- A file rewritten by the fix loop always ends with the newline appended
after the join. -/
theorem joinNL_endsWith_newline (ls : List String) :
    pyEndsWith (joinNL ls) "\n" = true := by
  unfold pyEndsWith joinNL
  apply List.isSuffixOf_iff_suffix.mpr
  exact ⟨joinLinesData ls, rfl⟩

/-- When every auto entry's file is on disk with the corrected line in
range, the report loop succeeds and reports every entry with its 1-based
line number and expected text. -/
theorem reportAutoLoop_all_readable (root : String) (fs : FS) :
    ∀ (lst : List (String × LineChange)) (i : Nat),
      (∀ fc ∈ lst, ∃ old, fs (joinPath root fc.1) = some old ∧
         fc.2.line_number < (splitlines old).length) →
      (reportAutoLoop root fs lst i).2 = .ok () ∧
      ∀ fc ∈ lst, ∃ j,
        Output.autoExpected j fc.1 (fc.2.line_number + 1) fc.2.expected
          ∈ (reportAutoLoop root fs lst i).1 := by
  intro lst
  induction lst with
  | nil => intro i _; refine ⟨rfl, ?_⟩; intro fc hfc; simp at hfc
  | cons head rest ih =>
    intro i hread
    obtain ⟨fname, ch⟩ := head
    obtain ⟨old, hold, hlt⟩ := hread (fname, ch) (List.mem_cons_self _ _)
    have hline : (splitlines old)[ch.line_number]? =
        some ((splitlines old).get ⟨ch.line_number, hlt⟩) :=
      List.getElem?_eq_getElem hlt
    have hrest := ih (i + 1) (fun fc hfc => hread fc (List.mem_cons_of_mem _ hfc))
    constructor
    · simp only [reportAutoLoop, hold, hline]
      exact hrest.1
    · intro fc hfc
      rcases List.mem_cons.mp hfc with hfc | hfc
    
      · refine ⟨i, ?_⟩
        simp only [reportAutoLoop, hold, hline, hfc]
        exact List.mem_cons_self _ _
      · obtain ⟨j, hj⟩ := hrest.2 fc hfc
        refine ⟨j, ?_⟩
        simp only [reportAutoLoop, hold, hline]
        exact List.mem_cons_of_mem _ (List.mem_cons_of_mem _ hj)

/-- Shape of `_apply_line_changes` when no manual entry exists, at least one
auto entry exists, and fix mode is off: the auto entries are reported, no
write is recorded, and the pass raises. -/
theorem apply_line_changes_report (u : ProjectUpdater) (fs : FS)
    (hfix : u.fix = false)
    (hman : (partition_line_changes u.line_corrections).1 = [])
    (hauto : (partition_line_changes u.line_corrections).2 ≠ []) :
    (u.apply_line_changes fs).2.1 = [] ∧
    (∃ e, (u.apply_line_changes fs).2.2 = .error e) ∧
    (u.apply_line_changes fs).1 =
      (reportAutoLoop u.projroot fs (partition_line_changes u.line_corrections).2 0).1 ∧
    ((reportAutoLoop u.projroot fs (partition_line_changes u.line_corrections).2 0).2 = .ok () →
      (u.apply_line_changes fs).2.2 = .error (.cleanError
        (pendingAutoMsg (partition_line_changes u.line_corrections).2.length))) := by
  have h : u.apply_line_changes fs =
      ((reportAutoLoop u.projroot fs (partition_line_changes u.line_corrections).2 0).1,
       [],
       match (reportAutoLoop u.projroot fs (partition_line_changes u.line_corrections).2 0).2 with
       | .ok _ => .error (.cleanError
           (pendingAutoMsg (partition_line_changes u.line_corrections).2.length))
       | .error e => .error e) := by
    unfold ProjectUpdater.apply_line_changes
    simp [hman, hauto, hfix]
  refine ⟨by rw [h], ?_, by rw [h], ?_⟩
  · rw [h]
    rcases (reportAutoLoop u.projroot fs
        (partition_line_changes u.line_corrections).2 0).2 with e | -
    · exact ⟨e, rfl⟩
    · exact ⟨.cleanError
        (pendingAutoMsg (partition_line_changes u.line_corrections).2.length), rfl⟩
  · intro hok
    rw [h, hok]

/-- When the line-correction pass raises, the apply phase stops there: its
outputs and writes are those of the line pass and the error propagates. -/
theorem apply_phase_of_line_error (u : ProjectUpdater) (fs : FS) (e : Err)
    (h : (u.apply_line_changes fs).2.2 = .error e) :
    u.apply_phase fs =
      ((u.apply_line_changes fs).1, (u.apply_line_changes fs).2.1, .error e) := by
  simp only [ProjectUpdater.apply_phase, h]

/-- C3 counterexample: a plain-mode run (check and fix both off) whose
ledger holds one auto-fixable correction and whose cache holds one stale
whole file raises the pending-auto error and records no write at all, so
the stale whole file is not written. -/
theorem apply_phase_plain_auto_counterexample :
    (partition_line_changes [("f.txt", [⟨0, "x", true⟩])]).1 = [] ∧
    (partition_line_changes [("f.txt", [⟨0, "x", true⟩])]).2 ≠ [] ∧
    (fun q => if q = "/r/f.txt" then some "old\n"
      else if q = "/r/g.txt" then some "stale" else none : FS) "/r/g.txt" ≠
      some (normalizeEOL "new\n") ∧
    (({ projroot := "/r", projname := "BallisticaKit", check := false,
        fix := false, public := false, license_line_checks := true,
        run_file_checks := true, can_generate_files := false,
        enqueued_updates := [],
        line_corrections := [("f.txt", [⟨0, "x", true⟩])],
        generated_files := [("g.txt", "new\n")], source_files := [],
        header_files := [] } : ProjectUpdater).apply_phase
      (fun q => if q = "/r/f.txt" then some "old\n"
        else if q = "/r/g.txt" then some "stale" else none)).2.1 = [] ∧
    (({ projroot := "/r", projname := "BallisticaKit", check := false,
        fix := false, public := false, license_line_checks := true,
        run_file_checks := true, can_generate_files := false,
        enqueued_updates := [],
        line_corrections := [("f.txt", [⟨0, "x", true⟩])],
        generated_files := [("g.txt", "new\n")], source_files := [],
        header_files := [] } : ProjectUpdater).apply_phase
      (fun q => if q = "/r/f.txt" then some "old\n"
        else if q = "/r/g.txt" then some "stale" else none)).2.2 =
      .error (.cleanError (pendingAutoMsg 1)) := by
  refine ⟨by decide, by decide, by decide, by decide, ?_⟩
  rfl

/-- C3 (amended): in a plain-mode run whose ledger contains at least one
line correction, all of them auto-fixable, the apply phase reports the
corrections and raises before the whole-file pass, so neither the line
corrections nor any whole-file mismatch is written. -/
theorem apply_phase_plain_auto_raises (u : ProjectUpdater) (fs : FS)
    (hcheck : u.check = false) (hfix : u.fix = false)
    (hman : (partition_line_changes u.line_corrections).1 = [])
    (hauto : (partition_line_changes u.line_corrections).2 ≠ []) :
    (u.apply_phase fs).2.1 = [] ∧
    (∃ e, (u.apply_phase fs).2.2 = .error e) ∧
    ((∀ fc ∈ (partition_line_changes u.line_corrections).2,
        ∃ old, fs (joinPath u.projroot fc.1) = some old ∧
          fc.2.line_number < (splitlines old).length) →
      (u.apply_phase fs).2.2 = .error (.cleanError
        (pendingAutoMsg (partition_line_changes u.line_corrections).2.length)) ∧
      ∀ fc ∈ (partition_line_changes u.line_corrections).2, ∃ j,
        Output.autoExpected j fc.1 (fc.2.line_number + 1) fc.2.expected
          ∈ (u.apply_phase fs).1) := by
  obtain ⟨hw, ⟨e, he⟩, houts, hok⟩ := apply_line_changes_report u fs hfix hman hauto
  have hph := apply_phase_of_line_error u fs e he
  refine ⟨by rw [hph]; exact hw, ⟨e, by rw [hph]⟩, ?_⟩
  intro hread
  obtain ⟨hrok, hrmem⟩ := reportAutoLoop_all_readable u.projroot fs
    (partition_line_changes u.line_corrections).2 0 hread
  have he2 := hok hrok
  have hph2 := apply_phase_of_line_error u fs _ he2
  constructor
  · rw [hph2]
  · intro fc hfc
    obtain ⟨j, hj⟩ := hrmem fc hfc
    refine ⟨j, ?_⟩
    rw [hph2]
    simp only []
    rw [houts]
    exact hj

/-- Concrete instantiation of `apply_phase_plain_auto_raises`. -/
theorem apply_phase_plain_auto_raises_witness :
    (({ projroot := "/r", projname := "BallisticaKit", check := false,
        fix := false, public := false, license_line_checks := true,
        run_file_checks := true, can_generate_files := false,
        enqueued_updates := [],
        line_corrections := [("f.txt", [⟨0, "x", true⟩])],
        generated_files := [("g.txt", "new\n")], source_files := [],
        header_files := [] } : ProjectUpdater).apply_phase
      (fun q => if q = "/r/f.txt" then some "old\n" else none)).2.1 = [] := by
  exact (apply_phase_plain_auto_raises _
    (fun q => if q = "/r/f.txt" then some "old\n" else none)
    rfl rfl (by decide) (by decide)).1

/-- C6: in fix mode with no manual entries outstanding, the line-correction
pass is exactly the left-to-right fix loop over the auto entries, and each
successful single-entry step re-reads the target file, replaces only the
designated zero-based line with the expected text, leaves every other line
and every other file untouched, and rewrites the file as the lines joined
by newlines with one trailing newline appended. -/
theorem apply_line_changes_fix_auto (u : ProjectUpdater) (fs : FS)
    (hfix : u.fix = true)
    (hman : (partition_line_changes u.line_corrections).1 = [])
    (hauto : (partition_line_changes u.line_corrections).2 ≠ []) :
    u.apply_line_changes fs =
      fixAutoLoop u.projroot fs (partition_line_changes u.line_corrections).2 ∧
    ∀ (fs1 : FS) (fname : String) (ch : LineChange) (o : List Output)
        (w : List (String × String)) (fs2 : FS),
      fixAutoLoop u.projroot fs1 [(fname, ch)] = (o, w, .ok fs2) →
      ∃ old, fs1 (joinPath u.projroot fname) = some old ∧
        ch.line_number < (splitlines old).length ∧
        w = [(joinPath u.projroot fname,
              joinNL ((splitlines old).set ch.line_number ch.expected))] ∧
        fs2 (joinPath u.projroot fname) =
          some (joinNL ((splitlines old).set ch.line_number ch.expected)) ∧
        (∀ q, q ≠ joinPath u.projroot fname → fs2 q = fs1 q) ∧
        ((splitlines old).set ch.line_number ch.expected)[ch.line_number]? =
          some ch.expected ∧
        (∀ i, i ≠ ch.line_number →
          ((splitlines old).set ch.line_number ch.expected)[i]? =
            (splitlines old)[i]?) ∧
        pyEndsWith (joinNL ((splitlines old).set ch.line_number ch.expected))
          "\n" = true := by
  constructor
  · unfold ProjectUpdater.apply_line_changes
    simp [hman, hauto, hfix]
  · intro fs1 fname ch o w fs2 h
    rcases hcon : fs1 (joinPath u.projroot fname) with - | old
    · simp [fixAutoLoop, hcon] at h
    · simp only [fixAutoLoop, hcon] at h
      by_cases hlt : ch.line_number < (splitlines old).length
      · simp only [if_pos hlt, fixAutoLoop, Prod.mk.injEq, Except.ok.injEq] at h
        obtain ⟨-, hw, hfs2⟩ := h
        refine ⟨old, rfl, hlt, hw.symm, ?_, ?_, ?_, ?_, ?_⟩
        · rw [← hfs2]; simp [FS.write]
        · intro q hq; rw [← hfs2]; simp [FS.write, hq]
        · exact List.getElem?_set_self hlt
        · intro i hi; exact List.getElem?_set_ne (Ne.symm hi)
        · exact joinNL_endsWith_newline _
      · simp [if_neg hlt] at h

/-- Concrete instantiation of `apply_line_changes_fix_auto`: a fix-mode run
over a single auto correction is the fix loop. -/
theorem apply_line_changes_fix_auto_witness :
    (({ projroot := "/r", projname := "BallisticaKit", check := false,
        fix := true, public := false, license_line_checks := true,
        run_file_checks := true, can_generate_files := false,
        enqueued_updates := [],
        line_corrections := [("f.txt", [⟨0, "NEW", true⟩])],
        generated_files := [], source_files := [],
        header_files := [] } : ProjectUpdater).apply_line_changes
      (fun q => if q = "/r/f.txt" then some "old\nrest\n" else none)) =
      fixAutoLoop "/r"
        (fun q => if q = "/r/f.txt" then some "old\nrest\n" else none)
        (partition_line_changes [("f.txt", [⟨0, "NEW", true⟩])]).2 := by
  exact (apply_line_changes_fix_auto _
    (fun q => if q = "/r/f.txt" then some "old\nrest\n" else none)
    rfl (by decide) (by decide)).1

/-- Unpacking a successful epilogue: the returned state is the dispatched
state and the returned content is its cache entry for the path. -/
theorem finishGenerate_ok (path : String) (r : ProjectUpdater × List String)
    (c : String) (u2 : ProjectUpdater) (tr : List String)
    (h : finishGenerate path r = .ok (c, u2, tr)) :
    u2 = r.1 ∧ tr = r.2 ∧ lookupVal r.1.generated_files path = some c := by
  unfold finishGenerate at h
  split at h
  next c1 hl =>
    simp only [Except.ok.injEq, Prod.mk.injEq] at h
    obtain ⟨hc, hu, htr⟩ := h
    exact ⟨hu.symm, htr.symm, by rw [hl, hc]⟩
  next hl => simp at h

/-- Rebasing a generated-files update across a state that differs from
another only in its generated files. -/
theorem setGen_congr (u u1 : ProjectUpdater)
    (h : u1 = { u with generated_files := u1.generated_files })
    (g : List (String × String)) :
    ({ u1 with generated_files := g } : ProjectUpdater) =
      { u with generated_files := g } :=
  calc ({ u1 with generated_files := g } : ProjectUpdater)
      = { ({ u with generated_files := u1.generated_files } : ProjectUpdater) with
          generated_files := g } :=
        congrArg (fun t => { t with generated_files := g }) h
    _ = { u with generated_files := g } := rfl

/-- Differing from a state only in the generated files is transitive. -/
theorem shape_trans (u u1 u2 : ProjectUpdater)
    (h1 : u1 = { u with generated_files := u1.generated_files })
    (h2 : u2 = { u1 with generated_files := u2.generated_files }) :
    u2 = { u with generated_files := u2.generated_files } :=
  calc u2 = { u1 with generated_files := u2.generated_files } := h2
    _ = { ({ u with generated_files := u1.generated_files } : ProjectUpdater) with
          generated_files := u2.generated_files } :=
        congrArg (fun t => { t with generated_files := u2.generated_files }) h1
    _ = { u with generated_files := u2.generated_files } := rfl

/-- Any successful `generate_file` call leaves every field except the
generated-files cache unchanged, stores the returned content in the cache
under the requested path, and presupposes generation is enabled. -/
theorem generate_file_ok_shape (env : GenEnv) (fs : FS) :
    ∀ (fuel : Nat) (u : ProjectUpdater) (path c : String)
      (u2 : ProjectUpdater) (tr : List String),
      generate_file env fs fuel u path = .ok (c, u2, tr) →
      u2 = { u with generated_files := u2.generated_files } ∧
      lookupVal u2.generated_files path = some c ∧
      u.can_generate_files = true := by
  intro fuel
  induction fuel with
  | zero => intro u path c u2 tr h; simp [generate_file] at h
  | succ fuel ih =>
    intro u path c u2 tr h
    rw [generate_file] at h
    by_cases hcg : u.can_generate_files = false
    · rw [if_pos hcg] at h
      simp at h
    · rw [if_neg hcg] at h
      have hcgt : u.can_generate_files = true := by
        cases hb : u.can_generate_files
        · exact absurd hb hcg
        · rfl
      rcases hl : lookupVal u.generated_files path with - | c0
      · rw [hl] at h
        dsimp only [] at h
        rcases hex : resolveExisting fs u path with e | existing
        · rw [hex] at h
          dsimp only [] at h
          simp at h
        · rw [hex] at h
          dsimp only [] at h
          by_cases h1 : pyEndsWith path "/project.pbxproj" = true
          · rw [if_pos h1] at h
            dsimp only [] at h
            obtain ⟨hu2, htr, hlook⟩ := finishGenerate_ok path _ c u2 tr h
            subst hu2
            exact ⟨rfl, hlook, hcgt⟩
          · rw [if_neg h1] at h
            by_cases h2 : pyEndsWith path ".vcxproj.filters" = true
            · rw [if_pos h2] at h
              rcases hrec : generate_file env fs fuel u
                  (pyRemoveSuffix path ".filters") with e | ⟨proj, u1, t1⟩
              · rw [hrec] at h
                dsimp only [] at h
                simp at h
              · rw [hrec] at h
                dsimp only [] at h
                obtain ⟨hu2, htr, hlook⟩ := finishGenerate_ok path _ c u2 tr h
                subst hu2
                exact ⟨setGen_congr u u1
                  (ih u (pyRemoveSuffix path ".filters") proj u1 t1 hrec).1 _,
                  hlook, hcgt⟩
            · rw [if_neg h2] at h
              by_cases h3 : pyEndsWith path ".vcxproj" = true
              · rw [if_pos h3] at h
                dsimp only [] at h
                obtain ⟨hu2, htr, hlook⟩ := finishGenerate_ok path _ c u2 tr h
                subst hu2
                exact ⟨rfl, hlook, hcgt⟩
              · rw [if_neg h3] at h
                by_cases h4 : pyEndsWith path "CMakeLists.txt" = true
                · rw [if_pos h4] at h
                  dsimp only [] at h
                  obtain ⟨hu2, htr, hlook⟩ := finishGenerate_ok path _ c u2 tr h
                  subst hu2
                  exact ⟨rfl, hlook, hcgt⟩
                · rw [if_neg h4] at h
                  by_cases h5 : path = "Makefile"
                  · rw [if_pos h5] at h
                    dsimp only [] at h
                    obtain ⟨hu2, htr, hlook⟩ := finishGenerate_ok path _ c u2 tr h
                    subst hu2
                    exact ⟨rfl, hlook, hcgt⟩
                  · rw [if_neg h5] at h
                    by_cases h6 : path = "src/assets/Makefile"
                    · rw [if_pos h6] at h
                      rcases hrec1 : generate_file env fs fuel u
                          "src/meta/.meta_manifest_public.json" with e | ⟨mpub, u1, t1⟩
                      · rw [hrec1] at h
                        dsimp only [] at h
                        simp at h
                      · rw [hrec1] at h
                        dsimp only [] at h
                        rcases hrec2 : generate_file env fs fuel u1
                            "src/meta/.meta_manifest_private.json" with e | ⟨mpriv, u2a, t2⟩
                        · rw [hrec2] at h
                          dsimp only [] at h
                          simp at h
                        · rw [hrec2] at h
                          dsimp only [] at h
                          obtain ⟨hu2, htr, hlook⟩ := finishGenerate_ok path _ c u2 tr h
                          subst hu2
                          exact ⟨setGen_congr u u2a
                            (shape_trans u u1 u2a
                              (ih u "src/meta/.meta_manifest_public.json"
                                mpub u1 t1 hrec1).1
                              (ih u1 "src/meta/.meta_manifest_private.json"
                                mpriv u2a t2 hrec2).1) _, hlook, hcgt⟩
                    · rw [if_neg h6] at h
                      by_cases h7 : pyStartsWith path "src/assets/.asset_manifest_public" = true
                      · rw [if_pos h7] at h
                        rcases hrec : generate_file env fs fuel u
                            "src/assets/Makefile" with e | ⟨v, u1, t1⟩
                        · rw [hrec] at h
                          dsimp only [] at h
                          simp at h
                        · rw [hrec] at h
                          dsimp only [] at h
                          obtain ⟨hu2, htr, hlook⟩ := finishGenerate_ok path _ c u2 tr h
                          subst hu2
                          exact ⟨(ih u "src/assets/Makefile" v u2 t1 hrec).1, hlook, hcgt⟩
                      · rw [if_neg h7] at h
                        by_cases h8 : pyStartsWith path "src/assets/.asset_manifest_private" = true
                        · rw [if_pos h8] at h
                          by_cases hpub : u.public = true
                          · rw [if_pos hpub] at h
                            dsimp only [] at h
                            obtain ⟨hu2, htr, hlook⟩ := finishGenerate_ok path _ c u2 tr h
                            subst hu2
                            exact ⟨rfl, hlook, hcgt⟩
                          · rw [if_neg hpub] at h
                            rcases hrec : generate_file env fs fuel u
                                "src/assets/Makefile" with e | ⟨v, u1, t1⟩
                            · rw [hrec] at h
                              dsimp only [] at h
                              simp at h
                            · rw [hrec] at h
                              dsimp only [] at h
                              obtain ⟨hu2, htr, hlook⟩ := finishGenerate_ok path _ c u2 tr h
                              subst hu2
                              exact ⟨(ih u "src/assets/Makefile" v u2 t1 hrec).1, hlook, hcgt⟩
                        · rw [if_neg h8] at h
                          by_cases h9 : path = "src/resources/Makefile"
                          · rw [if_pos h9] at h
                            dsimp only [] at h
                            obtain ⟨hu2, htr, hlook⟩ := finishGenerate_ok path _ c u2 tr h
                            subst hu2
                            exact ⟨rfl, hlook, hcgt⟩
                          · rw [if_neg h9] at h
                            by_cases h10 : path = "src/meta/Makefile"
                            · rw [if_pos h10] at h
                              dsimp only [] at h
                              obtain ⟨hu2, htr, hlook⟩ := finishGenerate_ok path _ c u2 tr h
                              subst hu2
                              exact ⟨rfl, hlook, hcgt⟩
                            · rw [if_neg h10] at h
                              by_cases h11 : path = "src/assets/ba_data/python/babase/_app.py"
                              · rw [if_pos h11] at h
                                dsimp only [] at h
                                obtain ⟨hu2, htr, hlook⟩ := finishGenerate_ok path _ c u2 tr h
                                subst hu2
                                exact ⟨rfl, hlook, hcgt⟩
                              · rw [if_neg h11] at h
                                by_cases h12 : pyStartsWith path "src/meta/.meta_manifest_" = true
                                · rw [if_pos h12] at h
                                  rcases hrec : generate_file env fs fuel u
                                      "src/meta/Makefile" with e | ⟨v, u1, t1⟩
                                  · rw [hrec] at h
                                    dsimp only [] at h
                                    simp at h
                                  · rw [hrec] at h
                                    dsimp only [] at h
                                    obtain ⟨hu2, htr, hlook⟩ := finishGenerate_ok path _ c u2 tr h
                                    subst hu2
                                    exact ⟨(ih u "src/meta/Makefile" v u2 t1 hrec).1, hlook, hcgt⟩
                                · rw [if_neg h12] at h
                                  dsimp only [] at h
                                  simp at h
      · rw [hl] at h
        dsimp only [] at h
        simp only [Except.ok.injEq, Prod.mk.injEq] at h
        obtain ⟨hc, hu, -⟩ := h
        refine ⟨by rw [← hu], ?_, hcgt⟩
        rw [← hu, hl, hc]

/-- C2: when `generate_file` succeeds for a path, the returned content is
cached under that path, and any later call for the same path within the run
returns the identical content from the cache, with the state unchanged and
no renderer invocation (empty trace). -/
theorem generate_file_memoized (env : GenEnv) (fs : FS) (fuel : Nat)
    (u : ProjectUpdater) (path c : String) (u2 : ProjectUpdater)
    (tr : List String)
    (h : generate_file env fs fuel u path = .ok (c, u2, tr)) :
    lookupVal u2.generated_files path = some c ∧
    ∀ fuel2 : Nat, generate_file env fs (fuel2 + 1) u2 path = .ok (c, u2, []) := by
  obtain ⟨hshape, hlook, hcg⟩ := generate_file_ok_shape env fs fuel u path c u2 tr h
  refine ⟨hlook, ?_⟩
  intro fuel2
  have hcg2 : u2.can_generate_files = true := by
    rw [hshape]
    exact hcg
  rw [generate_file]
  rw [if_neg (by rw [hcg2]; simp)]
  rw [hlook]

/-- Concrete instantiation of `generate_file_memoized`: a second call for
the top-level makefile returns the cached content with an empty renderer
trace. -/
theorem generate_file_memoized_witness :
    generate_file
      { renderXcode := fun _ _ => "A", renderVSFilters := fun _ _ => "A",
        renderVSProject := fun _ _ => "A", renderCMake := fun _ _ => "A",
        renderTopLevel := fun _ _ => "OUT", renderAssets := fun _ _ _ => [],
        renderResources := fun _ _ => "A", renderMeta := fun _ => [],
        renderAppModule := fun _ _ => "A" }
      (fun _ => none) 1
      { projroot := "/r", projname := "BallisticaKit", check := false,
        fix := false, public := false, license_line_checks := true,
        run_file_checks := true, can_generate_files := true,
        enqueued_updates := [("Makefile", some "existing")],
        line_corrections := [], generated_files := [("Makefile", "OUT")],
        source_files := [], header_files := [] } "Makefile" =
      .ok ("OUT",
        { projroot := "/r", projname := "BallisticaKit", check := false,
          fix := false, public := false, license_line_checks := true,
          run_file_checks := true, can_generate_files := true,
          enqueued_updates := [("Makefile", some "existing")],
          line_corrections := [], generated_files := [("Makefile", "OUT")],
          source_files := [], header_files := [] }, []) := by
  exact (generate_file_memoized
    { renderXcode := fun _ _ => "A", renderVSFilters := fun _ _ => "A",
      renderVSProject := fun _ _ => "A", renderCMake := fun _ _ => "A",
      renderTopLevel := fun _ _ => "OUT", renderAssets := fun _ _ _ => [],
      renderResources := fun _ _ => "A", renderMeta := fun _ => [],
      renderAppModule := fun _ _ => "A" }
    (fun _ => none) 1
    { projroot := "/r", projname := "BallisticaKit", check := false,
      fix := false, public := false, license_line_checks := true,
      run_file_checks := true, can_generate_files := true,
      enqueued_updates := [("Makefile", some "existing")],
      line_corrections := [], generated_files := [],
      source_files := [], header_files := [] } "Makefile" "OUT"
    { projroot := "/r", projname := "BallisticaKit", check := false,
      fix := false, public := false, license_line_checks := true,
      run_file_checks := true, can_generate_files := true,
      enqueued_updates := [("Makefile", some "existing")],
      line_corrections := [], generated_files := [("Makefile", "OUT")],
      source_files := [], header_files := [] }
    ["top_level_makefile"] rfl).2 0

/-- The generation loop of `run` also changes nothing but the cache. -/
theorem genLoop_shape (env : GenEnv) (fs : FS) (fuel : Nat) :
    ∀ (lst : List String) (u u1 : ProjectUpdater),
      genLoop env fs fuel u lst = .ok u1 →
      u1 = { u with generated_files := u1.generated_files } := by
  intro lst
  induction lst with
  | nil =>
    intro u u1 h
    simp only [genLoop, Except.ok.injEq] at h
    rw [← h]
  | cons p rest ih =>
    intro u u1 h
    rw [genLoop] at h
    rcases hg : generate_file env fs fuel u p with e | ⟨c, ua, t⟩
    · rw [hg] at h
      dsimp only [] at h
      simp at h
    · rw [hg] at h
      dsimp only [] at h
      exact shape_trans u ua u1
        (generate_file_ok_shape env fs fuel u p c ua t hg).1 (ih ua u1 h)

/-- Requesting line corrections never touches the enqueued updates. -/
theorem addCorrections_enqueued (cors : List (String × Nat × String × Bool)) :
    ∀ u : ProjectUpdater,
      (cors.foldl (fun a cor =>
        a.add_line_correction cor.1 cor.2.1 cor.2.2.1 cor.2.2.2) u).enqueued_updates =
        u.enqueued_updates := by
  induction cors with
  | nil => intro u; rfl
  | cons cor rest ih =>
    intro u
    exact (ih (u.add_line_correction cor.1 cor.2.1 cor.2.2.1 cor.2.2.2)).trans rfl

/-- The spec-modelled check suite never touches the enqueued updates. -/
theorem runChecks_enqueued :
    ∀ (checks : List CheckAction) (u u1 : ProjectUpdater),
      runChecks u checks = .ok u1 →
      u1.enqueued_updates = u.enqueued_updates := by
  intro checks
  induction checks with
  | nil =>
    intro u u1 h
    simp only [runChecks, Except.ok.injEq] at h
    rw [← h]
  | cons c rest ih =>
    intro u u1 h
    rw [runChecks] at h
    unfold runCheck at h
    rcases hf : c.failure with - | e
    · rw [hf] at h
      dsimp only [] at h
      exact (ih _ u1 h).trans (addCorrections_enqueued c.corrections u)
    · rw [hf] at h
      dsimp only [] at h
      simp at h

/-- C8: in every run that reaches the apply phase (generation and checks
succeed), the enqueued-updates mapping equals the snapshot taken before the
generation loop — generation and checks add entries only to the cache and
the ledger — so the assert passes and the run proceeds into the apply
phase with that state. -/
theorem run_enqueued_updates_stable (env : GenEnv) (checks : List CheckAction)
    (fuel : Nat) (u : ProjectUpdater) (fs : FS) (u1 u2 : ProjectUpdater)
    (hgen : genLoop env fs fuel u (u.enqueued_updates.map Prod.fst) = .ok u1)
    (hchk : (if u1.run_file_checks then runChecks u1 checks else .ok u1) = .ok u2) :
    u2.enqueued_updates = u.enqueued_updates ∧
    u.run env checks fuel fs =
      ProjectUpdater.apply_phase { u2 with can_generate_files := false } fs := by
  have h1 : u1.enqueued_updates = u.enqueued_updates := by
    rw [genLoop_shape env fs fuel _ u u1 hgen]
  have h2 : u2.enqueued_updates = u.enqueued_updates := by
    by_cases hrc : u1.run_file_checks = true
    · rw [if_pos hrc] at hchk
      exact (runChecks_enqueued checks u1 u2 hchk).trans h1
    · rw [if_neg hrc] at hchk
      simp only [Except.ok.injEq] at hchk
      rw [← hchk]
      exact h1
  refine ⟨h2, ?_⟩
  unfold ProjectUpdater.run
  rw [hgen]
  dsimp only []
  rw [hchk]
  dsimp only []
  rw [if_pos (by exact h2.symm)]

/-- Concrete instantiation of `run_enqueued_updates_stable`. -/
theorem run_enqueued_updates_stable_witness :
    ({ projroot := "/r", projname := "BallisticaKit", check := false,
       fix := false, public := false, license_line_checks := true,
       run_file_checks := true, can_generate_files := true,
       enqueued_updates := [("Makefile", some "existing")],
       line_corrections := [], generated_files := [("Makefile", "OUT")],
       source_files := [], header_files := [] } :
       ProjectUpdater).enqueued_updates = [("Makefile", some "existing")] := by
  exact (run_enqueued_updates_stable
    { renderXcode := fun _ _ => "A", renderVSFilters := fun _ _ => "A",
      renderVSProject := fun _ _ => "A", renderCMake := fun _ _ => "A",
      renderTopLevel := fun _ _ => "OUT", renderAssets := fun _ _ _ => [],
      renderResources := fun _ _ => "A", renderMeta := fun _ => [],
      renderAppModule := fun _ _ => "A" }
    [{ corrections := [], failure := none }] 1
    { projroot := "/r", projname := "BallisticaKit", check := false,
      fix := false, public := false, license_line_checks := true,
      run_file_checks := true, can_generate_files := true,
      enqueued_updates := [("Makefile", some "existing")],
      line_corrections := [], generated_files := [],
      source_files := [], header_files := [] }
    (fun _ => none)
    { projroot := "/r", projname := "BallisticaKit", check := false,
      fix := false, public := false, license_line_checks := true,
      run_file_checks := true, can_generate_files := true,
      enqueued_updates := [("Makefile", some "existing")],
      line_corrections := [], generated_files := [("Makefile", "OUT")],
      source_files := [], header_files := [] }
    { projroot := "/r", projname := "BallisticaKit", check := false,
      fix := false, public := false, license_line_checks := true,
      run_file_checks := true, can_generate_files := true,
      enqueued_updates := [("Makefile", some "existing")],
      line_corrections := [], generated_files := [("Makefile", "OUT")],
      source_files := [], header_files := [] }
    rfl rfl).1

/-- C10: `project_centric_path` returns the dot path exactly when the
absolute form equals the project root, strips the root prefix when the
absolute form lies under the root, and raises for every other path. -/
theorem project_centric_path_spec (projroot abspath : String) :
    (abspath = projroot → project_centric_path projroot abspath = .ok ".") ∧
    (∀ t, abspath = projroot ++ "/" ++ t →
      project_centric_path projroot abspath = .ok t) ∧
    (abspath ≠ projroot → pyStartsWith abspath (projroot ++ "/") = false →
      project_centric_path projroot abspath =
        .error (.runtimeError ("Path \"" ++ abspath ++
          "\" is not under project root \"" ++ projroot ++ "/\""))) := by
  refine ⟨?_, ?_, ?_⟩
  · intro h
    unfold project_centric_path
    rw [if_pos h]
  · intro t ht
    subst ht
    have hne : projroot ++ "/" ++ t ≠ projroot := by
      intro hcon
      have hlen := congrArg String.length hcon
      rw [String.length_append, String.length_append] at hlen
      have hone : ("/" : String).length = 1 := rfl
      omega
    unfold project_centric_path
    rw [if_neg hne]
    have hsw : pyStartsWith (projroot ++ "/" ++ t) (projroot ++ "/") = true := by
      unfold pyStartsWith
      exact List.isPrefixOf_iff_prefix.mpr ⟨t.data, rfl⟩
    rw [if_pos hsw]
    congr 1
    show (⟨((projroot ++ "/").data ++ t.data).drop (projroot ++ "/").data.length⟩ :
      String) = t
    rw [List.drop_left]
  · intro hne hsw
    unfold project_centric_path
    rw [if_neg hne, if_neg (by rw [hsw]; simp)]

/-- Concrete instantiation of `project_centric_path_spec`. -/
theorem project_centric_path_spec_witness :
    project_centric_path "/a" "/a/b.txt" = .ok "b.txt" :=
  (project_centric_path_spec "/a" "/a/b.txt").2.1 "b.txt" (by decide)

/-- Python sorted output is determined by the multiset of inputs. -/
theorem pySorted_eq_of_perm (l1 l2 : List String) (h : l1.Perm l2) :
    pySorted l1 = pySorted l2 :=
  List.eq_of_perm_of_sorted
    ((List.perm_insertionSort strLe l1).trans
      (h.trans (List.perm_insertionSort strLe l2).symm))
    (List.sorted_insertionSort strLe l1) (List.sorted_insertionSort strLe l2)

/-- C9: the scan output contains a path exactly when some walked file with
a matching extension maps to it and it does not contain the
machine-generated marker; stored paths are the walk subdirectory plus a
separator plus the file name (so they carry a leading separator); both
result lists are sorted and duplicate-free; and the result is invariant
under reordering of the filesystem walk. -/
theorem find_sources_and_headers_spec (scanDir : String) (walk : List WalkEntry) :
    (∀ f, f ∈ (find_sources_and_headers scanDir walk).1 ↔
       ((∃ e ∈ walk, walkRelPath scanDir e = f ∧
          sourceExts.any (fun ext => pyEndsWith e.fname ext) = true) ∧
        pyContains f "/mgen/" = false)) ∧
    (∀ f, f ∈ (find_sources_and_headers scanDir walk).2 ↔
       ((∃ e ∈ walk, walkRelPath scanDir e = f ∧
          pyEndsWith e.fname ".h" = true) ∧
        pyContains f "/mgen/" = false)) ∧
    (∀ e : WalkEntry, walkRelPath scanDir e = e.subroot ++ "/" ++ e.fname) ∧
    ((find_sources_and_headers scanDir walk).1.Sorted strLe ∧
     (find_sources_and_headers scanDir walk).1.Nodup ∧
     (find_sources_and_headers scanDir walk).2.Sorted strLe ∧
     (find_sources_and_headers scanDir walk).2.Nodup) ∧
    (∀ walk2 : List WalkEntry, walk.Perm walk2 →
       find_sources_and_headers scanDir walk = find_sources_and_headers scanDir walk2) := by
  have hrel : ∀ e : WalkEntry, walkRelPath scanDir e = e.subroot ++ "/" ++ e.fname := by
    intro e
    unfold walkRelPath pyDrop joinPath
    show (⟨((((scanDir.data ++ e.subroot.data) ++ "/".data) ++ e.fname.data)).drop
      scanDir.data.length⟩ : String) = e.subroot ++ "/" ++ e.fname
    have hassoc : (((scanDir.data ++ e.subroot.data) ++ "/".data) ++ e.fname.data) =
        scanDir.data ++ ((e.subroot.data ++ "/".data) ++ e.fname.data) := by
      simp [List.append_assoc]
    rw [hassoc, List.drop_left]
    rfl
  refine ⟨?_, ?_, hrel, ⟨?_, ?_, ?_, ?_⟩, ?_⟩
  · intro f
    unfold find_sources_and_headers pySorted
    dsimp only
    rw [List.Perm.mem_iff (List.perm_insertionSort strLe _)]
    simp only [List.mem_filter, List.mem_dedup, List.mem_map, List.mem_filter,
      Bool.not_eq_eq_eq_not, Bool.not_true]
    constructor
    · rintro ⟨⟨e, ⟨he, hq⟩, hf⟩, hm⟩
      exact ⟨⟨e, he, hf, hq⟩, hm⟩
    · rintro ⟨⟨e, he, hf, hq⟩, hm⟩
      exact ⟨⟨e, ⟨he, hq⟩, hf⟩, hm⟩
  · intro f
    unfold find_sources_and_headers pySorted
    dsimp only
    rw [List.Perm.mem_iff (List.perm_insertionSort strLe _)]
    simp only [List.mem_filter, List.mem_dedup, List.mem_map, List.mem_filter,
      Bool.not_eq_eq_eq_not, Bool.not_true, headerExts, List.any_cons,
      List.any_nil, Bool.or_false]
    constructor
    · rintro ⟨⟨e, ⟨he, hq⟩, hf⟩, hm⟩
      exact ⟨⟨e, he, hf, hq⟩, hm⟩
    · rintro ⟨⟨e, he, hf, hq⟩, hm⟩
      exact ⟨⟨e, ⟨he, hq⟩, hf⟩, hm⟩
  · exact List.sorted_insertionSort strLe _
  · exact ((List.perm_insertionSort strLe _).nodup_iff).mpr
      ((List.nodup_dedup _).filter _)
  · exact List.sorted_insertionSort strLe _
  · exact ((List.perm_insertionSort strLe _).nodup_iff).mpr
      ((List.nodup_dedup _).filter _)
  · intro walk2 hp
    unfold find_sources_and_headers
    dsimp only
    have h1 := pySorted_eq_of_perm _ _
      ((((hp.filter (fun e =>
        sourceExts.any (fun ext => pyEndsWith e.fname ext))).map
          (walkRelPath scanDir)).dedup).filter (fun s => !pyContains s "/mgen/"))
    have h2 := pySorted_eq_of_perm _ _
      ((((hp.filter (fun e =>
        headerExts.any (fun ext => pyEndsWith e.fname ext))).map
          (walkRelPath scanDir)).dedup).filter (fun s => !pyContains s "/mgen/"))
    exact Prod.ext h1 h2

/-- Concrete instantiation of `find_sources_and_headers_spec`: the scan is
insensitive to walk order. -/
theorem find_sources_and_headers_spec_witness :
    find_sources_and_headers "/S"
      [⟨"", "a.cc"⟩, ⟨"/d", "b.h"⟩] =
    find_sources_and_headers "/S"
      [⟨"/d", "b.h"⟩, ⟨"", "a.cc"⟩] := by
  exact (find_sources_and_headers_spec "/S"
    [⟨"", "a.cc"⟩, ⟨"/d", "b.h"⟩]).2.2.2.2
    [⟨"/d", "b.h"⟩, ⟨"", "a.cc"⟩] (by decide)

/-- C7: constructing with both `check` and `fix` raises the configuration
error before any file I/O (empty event list), and with at most one of the
two flags set the constructor never raises that error (its only other
raises are the assert failures guarding public-repo paths on disk). -/
theorem init_mode_exclusivity (projroot projname : String)
    (check fix empty cfgPublic licenseLineChecks xcodeProjOnDisk
      cmakeAndroidOnDisk : Bool) :
    ((fix && check) = true →
      initUpdater projroot projname check fix empty cfgPublic licenseLineChecks
        xcodeProjOnDisk cmakeAndroidOnDisk =
        ([], .error (.runtimeError "fix and check cannot both be enabled"))) ∧
    ((fix && check) = false →
      ∀ e, (initUpdater projroot projname check fix empty cfgPublic
        licenseLineChecks xcodeProjOnDisk cmakeAndroidOnDisk).2 = .error e →
        e = .assertionError) := by
  constructor
  · intro hfc
    unfold initUpdater
    rw [if_pos hfc]
  · intro hfc e h
    unfold initUpdater at h
    rw [if_neg (by simp [hfc])] at h
    by_cases hemp : empty = true
    · rw [if_pos hemp] at h
      simp at h
    · rw [if_neg hemp] at h
      dsimp only [] at h
      cases cfgPublic <;> cases cmakeAndroidOnDisk <;> cases xcodeProjOnDisk <;>
        simp_all [initCMakeStep, initXcodeStep, initVSStep]

/-- Concrete instantiation of `init_mode_exclusivity`: both flags set is
refused with no I/O performed. -/
theorem init_mode_exclusivity_witness :
    initUpdater "/r" "BallisticaKit" true true false false true false false =
      ([], .error (.runtimeError "fix and check cannot both be enabled")) :=
  (init_mode_exclusivity "/r" "BallisticaKit" true true false false true
    false false).1 rfl
